import Mathlib

/-!
Verification of the bee2bee repository-indexing core
(`src/bee2bee-indexer/src`), via a shallow embedding of its Python
modules into Lean.

Embedding conventions:
* Python strings are Lean `String`; `str.replace` with a one-character
  pattern, `str.strip`, `str.rstrip` and `str.split` are modelled at the
  character-list level, where they are exactly character maps / filters.
* Python floats that only ever hold exact decimal fractions (progress
  values, `1 / (1 + distance)` scores) are modelled as `ℚ`.
* Calls into external libraries (tree-sitter nodes, sentence-transformer
  encoders, the `inflection` casing helpers, ChromaDB collections) are
  modelled as explicit data (`TSNode`, `Store`) or function parameters
  (`nlpEncode`, `codeEncode`, `humanize`, a per-query `dist` oracle),
  keeping every line of repository logic explicit.
* Async methods are modelled as explicit state-passing functions; the
  job states observable by `get_job_status` polling are exactly the
  states at `await` points, collected in a `trace` field.
-/

namespace Bee2Bee

/-! ### Python string primitives at the character level -/

/-- Python `s.replace(a, b)` for a one-character pattern `a`:
a pointwise character map. -/
def replaceChar (a b : Char) (s : String) : String :=
  ⟨s.data.map fun c => if c = a then b else c⟩

/-- Does the list `h` start with the list `n`? -/
def startsWithChars : List Char → List Char → Bool
  | [], _ => true
  | _ :: _, [] => false
  | a :: as, b :: bs => a = b && startsWithChars as bs

/-- Python `n in h` on strings: `n` occurs contiguously in `h`. -/
def containsChars (n : List Char) : List Char → Bool
  | [] => startsWithChars n []
  | h@(_ :: rest) => startsWithChars n h || containsChars n rest

/-- Python `needle in hay` for strings. -/
def containsSub (hay needle : String) : Bool :=
  containsChars needle.data hay.data

/-- Python `s.strip(c)` for a set consisting of one character:
drop leading and trailing occurrences of `c`. -/
def stripChar (c : Char) (s : String) : String :=
  ⟨((s.data.dropWhile (· = c)).reverse.dropWhile (· = c)).reverse⟩

/-- Python `s.rstrip(c)`: drop trailing occurrences of `c`. -/
def rstripChar (c : Char) (s : String) : String :=
  ⟨(s.data.reverse.dropWhile (· = c)).reverse⟩

/-- Helper for Python `str.split(sep)` with a one-character separator. -/
def splitOnCharAux (c : Char) (acc : List Char) : List Char → List (List Char)
  | [] => [acc.reverse]
  | x :: xs =>
    if x = c then acc.reverse :: splitOnCharAux c [] xs
    else splitOnCharAux c (x :: acc) xs

/-- Python `s.split(c)` for a one-character separator `c`. -/
def pySplitChar (c : Char) (s : String) : List String :=
  (splitOnCharAux c [] s.data).map (⟨·⟩)

/-- Helper splitting on a character predicate, keeping empty segments. -/
def splitOnPredAux (p : Char → Bool) (acc : List Char) : List Char → List (List Char)
  | [] => [acc.reverse]
  | x :: xs =>
    if p x then acc.reverse :: splitOnPredAux p [] xs
    else splitOnPredAux p (x :: acc) xs

/-- Python `s.split()` with no argument: split on whitespace runs,
dropping empty segments. -/
def pySplitWs (s : String) : List String :=
  ((splitOnPredAux (fun c => c.isWhitespace) [] s.data).filter (· ≠ [])).map (⟨·⟩)

/-! ### `core/types.py`: data model -/

/-- `core/types.py` `Language` enum. -/
inductive Language where
  | PYTHON | JAVASCRIPT | TYPESCRIPT | RUST | GO | JAVA | CPP | C | UNKNOWN
deriving DecidableEq, Repr

/-- `core/types.py` `ChunkType` enum. -/
inductive ChunkType where
  | FUNCTION | CLASS | METHOD | VARIABLE | IMPORT | COMMENT | FILE
deriving DecidableEq, Repr

/-- `core/types.py` `CodeChunk` model. -/
structure CodeChunk where
  id : String
  code : String
  repo : String
  file_path : String
  language : Language
  chunk_type : ChunkType
  name : String
  signature : Option String
  docstring : Option String
  start_line : Nat
  end_line : Nat
  start_byte : Nat
  end_byte : Nat
  parent_class : Option String := none
  module : Option String := none
  imports : List String := []
  complexity : Option Nat := none
  lines_of_code : Nat
deriving DecidableEq, Repr

/-! ### Tree-sitter nodes

A tree-sitter `Node`, with exactly the structure the chunker consults:
a node type string, named fields, positional children, and row/byte
spans. A node's `text` is the byte-slice of the source it spans (Python
indexes `str` by code points; we model `content` as a `String` and slice
its character list). -/

inductive TSNode where
  | mk (type : String) (fields : List (String × TSNode)) (children : List TSNode)
      (startRow endRow startByte endByte : Nat)

def TSNode.type : TSNode → String
  | .mk t _ _ _ _ _ _ => t

def TSNode.fields : TSNode → List (String × TSNode)
  | .mk _ f _ _ _ _ _ => f

def TSNode.children : TSNode → List TSNode
  | .mk _ _ c _ _ _ _ => c

def TSNode.startRow : TSNode → Nat
  | .mk _ _ _ r _ _ _ => r

def TSNode.endRow : TSNode → Nat
  | .mk _ _ _ _ r _ _ => r

def TSNode.startByte : TSNode → Nat
  | .mk _ _ _ _ _ b _ => b

def TSNode.endByte : TSNode → Nat
  | .mk _ _ _ _ _ _ b => b

/-- tree-sitter `node.child_by_field_name(name)`. -/
def TSNode.childByFieldName (n : TSNode) (name : String) : Option TSNode :=
  (n.fields.find? (fun p => p.1 = name)).map (·.2)

/-- tree-sitter `node.child(i)`. -/
def TSNode.child (n : TSNode) (i : Nat) : Option TSNode :=
  n.children.get? i

/-- tree-sitter `node.child_count`. -/
def TSNode.childCount (n : TSNode) : Nat :=
  n.children.length

/-- tree-sitter `node.text` decoded from the source `content`
(the slice `content[start_byte:end_byte]`). -/
def TSNode.text (n : TSNode) (content : String) : String :=
  ⟨(content.data.drop n.startByte).take (n.endByte - n.startByte)⟩

/-! ### `chunkers/function_chunker.py`: `FunctionChunker` -/

namespace FunctionChunker

/-- `FunctionChunker._get_node_name`: the `name` field's text, else the
first `identifier` child's text, else `None`. -/
def getNodeName (node : TSNode) (content : String) : Option String :=
  match node.childByFieldName "name" with
  | some nameNode => some (nameNode.text content)
  | none => (node.children.find? (fun c => c.type = "identifier")).map (·.text content)

/-- `FunctionChunker._get_chunk_type`: substring dispatch on the
tree-sitter node type. -/
def getChunkType (nodeType : String) : ChunkType :=
  if containsSub nodeType "function" then ChunkType.FUNCTION
  else if containsSub nodeType "method" then ChunkType.METHOD
  else if containsSub nodeType "class" then ChunkType.CLASS
  else ChunkType.FUNCTION

/-- `FunctionChunker._extract_docstring`: for a Python function or
method body, the string expression in the body's second child, with
quote characters stripped
(`.strip(triple-quote).strip(triple-apostrophe).strip(quote).strip(apostrophe)`;
Python `strip` takes a character set, so each call strips one quote
character repeatedly). -/
def extractDocstring (node : TSNode) (content : String) : Option String :=
  if node.type = "function_definition" ∨ node.type = "method_definition" then
    match node.childByFieldName "body" with
    | some body =>
      if body.childCount > 1 then
        match body.child 1 with
        | some firstStmt =>
          if firstStmt.type = "expression_statement" then
            match firstStmt.child 0 with
            | some expr =>
              if expr.type = "string" then
                some (stripChar '\'' (stripChar '"' (stripChar '\'' (stripChar '"'
                  (expr.text content)))))
              else none
            | none => none
          else none
        | none => none
      else none
    | none => none
  else none

/-- The chunk-id expression of `FunctionChunker._node_to_chunk`:
`repo_filePath_name_startRow` with `/` and space replaced by `_`
(two successive one-character `str.replace` calls). -/
def chunkId (repo filePath name : String) (startRow : Nat) : String :=
  replaceChar ' ' '_' (replaceChar '/' '_'
    (repo ++ "_" ++ filePath ++ "_" ++ name ++ "_" ++ toString startRow))

/-- `FunctionChunker._node_to_chunk`. Python `if not name` treats both
`None` and the empty string as missing, synthesizing an anonymous
placeholder. -/
def nodeToChunk (node : TSNode) (content repo filePath : String)
    (language : Language) : CodeChunk :=
  let name :=
    match getNodeName node content with
    | some n => if n = "" then "<anonymous_" ++ node.type ++ ">" else n
    | none => "<anonymous_" ++ node.type ++ ">"
  let code := ⟨(content.data.drop node.startByte).take (node.endByte - node.startByte)⟩
  let chunk_type := getChunkType node.type
  let signature := if code = "" then none else some ((pySplitChar '\n' code).headD "")
  let docstring := extractDocstring node content
  let id := chunkId repo filePath name node.startRow
  let lines_of_code := node.endRow - node.startRow + 1
  { id := id
    code := code
    repo := repo
    file_path := filePath
    language := language
    chunk_type := chunk_type
    name := name
    signature := signature
    docstring := docstring
    start_line := node.startRow
    end_line := node.endRow
    start_byte := node.startByte
    end_byte := node.endByte
    lines_of_code := lines_of_code }

end FunctionChunker

/-! ### `embeddings/dual_embedder.py`: `DualEmbedder` -/

/-- The chunk dictionaries built by `ChromaStore.store_chunks` and fed to
`DualEmbedder.embed_batch` (keys `code`, `name`, `chunk_type`,
`signature`, `docstring`, `file_path`, `module`; the optional values can
be `None`). -/
structure ChunkDict where
  code : String
  name : String
  chunk_type : String
  signature : Option String
  docstring : Option String
  file_path : String
  module : Option String
deriving DecidableEq, Repr

/-- The `DualEmbedder` with its external collaborators as data: the two
sentence encoders map each input text independently to its vector (the
encoder contract: one output vector per input text, in order), and
`humanize` stands for `inflection.humanize(inflection.underscore(-))`. -/
structure DualEmbedder where
  nlpEncode : String → List ℚ
  codeEncode : String → List ℚ
  humanize : String → String

namespace DualEmbedder

/-- Python `\w` (ASCII part) for `re.sub(non-word-non-space, space, -)`. -/
def isWordChar (c : Char) : Bool :=
  c.isAlphanum || c = '_'

/-- `DualEmbedder._textify`: humanize the name and signature, build the
descriptive sentence, replace every character that is neither a word
character nor whitespace by a space, and collapse whitespace runs.
`chunk.get(key, default)` returns the stored value even when it is
`None`; a `None` docstring or module is falsy and skipped. (A `None`
signature would be rejected by `inflection.underscore`; chunks built by
the pipeline carry `None` there only for empty code, totalized here to
the empty string, which the falsiness test then skips.) -/
def textify (e : DualEmbedder) (chunk : ChunkDict) : String :=
  let name := e.humanize chunk.name
  let signature := e.humanize (chunk.signature.getD "")
  let docstring := chunk.docstring.getD ""
  let fileName := (pySplitChar '/' chunk.file_path).getLastD ""
  let module := chunk.module.getD ""
  let parts := [chunk.chunk_type ++ " " ++ name]
    ++ (if docstring ≠ "" then ["that does " ++ docstring] else [])
    ++ (if signature ≠ "" then ["defined as " ++ signature] else [])
    ++ ["in file " ++ fileName]
    ++ (if module ≠ "" then ["module " ++ module] else [])
  let text := String.intercalate " " parts
  let text := ⟨text.data.map fun c => if isWordChar c || c.isWhitespace then c else ' '⟩
  String.intercalate " " (pySplitWs text)

/-- `DualEmbedder.embed_batch` (local provider): textify each chunk,
collect raw code, run each encoder over its batch, and zip the two
vector lists. -/
def embed_batch (e : DualEmbedder) (chunks : List ChunkDict) :
    List (List ℚ × List ℚ) :=
  let textified := chunks.map e.textify
  let raw_codes := chunks.map (·.code)
  let nlp_embeddings := textified.map e.nlpEncode
  let code_embeddings := raw_codes.map e.codeEncode
  List.zip nlp_embeddings code_embeddings

end DualEmbedder

/-! ### `storage/chroma_store.py`: `ChromaStore`

The ChromaDB client is modelled as an explicit list of named
collections. A collection holds its metadata dictionary (`repo`,
`branch`, `indexed_by_users`, `total_chunks`; the `last_updated`
timestamp is not modelled) and its stored rows. A stored row keeps id,
document and metadata together as the `CodeChunk` it was built from:
`search` reconstructs a `CodeChunk` from exactly those fields, so the
round trip is the identity. -/

structure CollectionMeta where
  repo : String
  branch : String
  indexed_by_users : List String
  total_chunks : Nat
deriving DecidableEq, Repr

structure Collection where
  name : String
  meta : CollectionMeta
  entries : List CodeChunk
deriving DecidableEq, Repr

structure Store where
  collections : List Collection
deriving DecidableEq, Repr

def Store.empty : Store := ⟨[]⟩

/-- `client.get_collection(name)`: the collection with that name, if any
(raises in Python, `Option` here; every caller wraps the call in
`try/except`). -/
def Store.getCollection (s : Store) (name : String) : Option Collection :=
  s.collections.find? (fun c => c.name = name)

/-- Writing back a collection: replace the collection of that name, or
append a newly created one. -/
def Store.setCollection (s : Store) (col : Collection) : Store :=
  if (s.getCollection col.name).isSome then
    ⟨s.collections.map (fun c => if c.name = col.name then col else c)⟩
  else
    ⟨s.collections ++ [col]⟩

/-- `core/types.py` `SearchResult` (the `surrounding_code` field is
always absent here). -/
structure SearchResult where
  chunk : CodeChunk
  score : ℚ
  distance : ℚ
  file_url : String
deriving DecidableEq, Repr

namespace ChromaStore

/-- `ChromaStore._get_collection_name`. -/
def getCollectionName (repo branch : String) : String :=
  "github_" ++ replaceChar '/' '_' repo ++ "_" ++ branch

/-- `ChromaStore.store_chunks`. `get_or_create_collection` keeps an
existing collection (and its metadata) untouched; the per-batch `add`
calls append the rows batch after batch, so the net effect on the final
state is appending all chunks in input order; the closing
`collection.modify` replaces the metadata, resetting
`indexed_by_users` to the single caller and `total_chunks` to the
number of chunks just stored. -/
def store_chunks (s : Store) (chunks : List CodeChunk)
    (repo user_id branch : String) : Store :=
  if chunks = [] then s
  else
    let collection_name := getCollectionName repo branch
    let col0 :=
      match s.getCollection collection_name with
      | some c => c
      | none =>
        { name := collection_name
          meta := { repo := repo, branch := branch
                    indexed_by_users := [user_id], total_chunks := 0 }
          entries := [] }
    let col1 := { col0 with entries := col0.entries ++ chunks }
    let col2 := { col1 with
      meta := { repo := repo, branch := branch
                indexed_by_users := [user_id]
                total_chunks := chunks.length } }
    s.setCollection col2

/-- `ChromaStore.collection_exists`. -/
def collection_exists (s : Store) (repo branch : String) : Bool :=
  (s.getCollection (getCollectionName repo branch)).isSome

/-- `ChromaStore.add_user_to_repo`: append the user to
`indexed_by_users` when absent; a missing collection is swallowed
(`except: pass`). -/
def add_user_to_repo (s : Store) (repo user_id branch : String) : Store :=
  match s.getCollection (getCollectionName repo branch) with
  | none => s
  | some col =>
    let users := col.meta.indexed_by_users
    if user_id ∈ users then s
    else s.setCollection { col with
      meta := { col.meta with indexed_by_users := users ++ [user_id] } }

/-- `ChromaStore.get_chunk_count`: the `total_chunks` metadata field,
`0` when the collection is missing. -/
def get_chunk_count (s : Store) (repo branch : String) : Nat :=
  match s.getCollection (getCollectionName repo branch) with
  | some col => col.meta.total_chunks
  | none => 0

/-- Ordering of query candidates by ascending distance. -/
def distLE (a b : CodeChunk × ℚ) : Prop := a.2 ≤ b.2

instance : DecidableRel distLE := fun a b => inferInstanceAs (Decidable (a.2 ≤ b.2))

instance : IsTotal (CodeChunk × ℚ) distLE := ⟨fun a b => le_total a.2 b.2⟩

instance : IsTrans (CodeChunk × ℚ) distLE := ⟨fun _ _ _ h1 h2 => le_trans h1 h2⟩

/-- `collection.query(...)`: ChromaDB returns the `n_results` stored
rows nearest to the query embedding, with their distances in ascending
order. The vector geometry is abstracted into the per-query oracle
`dist`, giving each stored row its distance to the query; the
stable ascending sort then truncation models the nearest-neighbor
answer. -/
def queryCollection (dist : CodeChunk → ℚ) (col : Collection)
    (n_results : Nat) : List (CodeChunk × ℚ) :=
  (List.insertionSort distLE (col.entries.map (fun e => (e, dist e)))).take n_results

/-- Ordering of merged results by descending score (`reverse=True`). -/
def scoreGE (a b : SearchResult) : Prop := b.score ≤ a.score

instance : DecidableRel scoreGE := fun a b => inferInstanceAs (Decidable (b.score ≤ a.score))

instance : IsTotal SearchResult scoreGE := ⟨fun a b => le_total b.score a.score⟩

instance : IsTrans SearchResult scoreGE := ⟨fun _ _ _ h1 h2 => le_trans h2 h1⟩

/-- The `all_results` accumulator of `ChromaStore.search` before the
final sort: per requested repo, look up the collection named for branch
`main`; a missing collection is skipped (`except ...: continue`), a
collection whose tenant set lacks the user is skipped (`continue`);
otherwise each query candidate becomes a `SearchResult` with score
`1 / (1 + distance)` and a constructed GitHub link. -/
def searchCandidates (s : Store) (dist : CodeChunk → ℚ) (repos : List String)
    (user_id : String) (n_results : Nat) : List SearchResult :=
  repos.flatMap fun repo =>
    match s.getCollection (getCollectionName repo "main") with
    | none => []
    | some collection =>
      if user_id ∈ collection.meta.indexed_by_users then
        (queryCollection dist collection n_results).map fun cd =>
          { chunk := cd.1
            score := 1 / (1 + cd.2)
            distance := cd.2
            file_url := "https://github.com/" ++ repo ++ "/blob/main/" ++
              cd.1.file_path ++ "#L" ++ toString cd.1.start_line ++ "-L" ++
              toString cd.1.end_line }
      else []

/-- `ChromaStore.search`: merge the per-collection candidates, sort by
descending score (Python `list.sort` is stable, as is this insertion
sort, so the lists agree exactly), and truncate to the global top
`n_results`. -/
def search (s : Store) (dist : CodeChunk → ℚ) (repos : List String)
    (user_id : String) (n_results : Nat) : List SearchResult :=
  (List.insertionSort scoreGE (searchCandidates s dist repos user_id n_results)).take
    n_results

end ChromaStore

/-! ### `core/indexer.py`: `RepoIndexer` -/

/-- `IndexingJob.status` values. -/
inductive JobStatus where
  | pending | running | completed | failed
deriving DecidableEq, Repr

/-- `core/types.py` `IndexingJob` (timestamps not modelled). -/
structure IndexingJob where
  job_id : String
  repo : String
  status : JobStatus
  progress : ℚ := 0
  chunks_indexed : Nat := 0
  files_processed : Nat := 0
  errors : List String := []
  triggered_by : String
  incremental : Bool := false
deriving DecidableEq, Repr

namespace RepoIndexer

/-- `RepoIndexer._parse_repo_url`: strip trailing slashes, split on
slashes, read the last two segments (out-of-range indexing, impossible
for well-formed GitHub URLs, is totalized to the empty string). -/
def parse_repo_url (url : String) : String × String :=
  let parts := pySplitChar '/' (rstripChar '/' url)
  (parts.getD (parts.length - 2) "", parts.getLastD "")

/-- The `owner/name` repo identifier parsed from a URL. -/
def repoFullName (url : String) : String :=
  (parse_repo_url url).1 ++ "/" ++ (parse_repo_url url).2

/-- `RepoIndexer._check_existing_index`: note every storage call here
uses the default branch `main`, whatever branch the indexing request
named. Returns the synthetic completed job (if any) and the store after
the tenant grant. -/
def check_existing_index (s : Store) (repo user_id : String) :
    Option IndexingJob × Store :=
  if ChromaStore.collection_exists s repo "main" then
    let s1 := ChromaStore.add_user_to_repo s repo user_id "main"
    (some
      { job_id := "cached"
        repo := repo
        status := .completed
        progress := 1
        chunks_indexed := ChromaStore.get_chunk_count s1 repo "main"
        triggered_by := user_id }, s1)
  else (none, s)

/-- The immediate outcome of `index_repository`: either the cached
synthetic job (pipeline untouched) or a fresh pending job whose
pipeline was launched as a background task. -/
inductive IndexDecision where
  | cached (job : IndexingJob)
  | started (job : IndexingJob)
deriving DecidableEq, Repr

def IndexDecision.ranPipeline : IndexDecision → Bool
  | .cached _ => false
  | .started _ => true

def IndexDecision.job : IndexDecision → IndexingJob
  | .cached j => j
  | .started j => j

/-- The synchronous part of `RepoIndexer.index_repository`: parse the
URL, short-circuit through `_check_existing_index` when not
incremental, otherwise create a pending job and launch the pipeline
(`uuid.uuid4()` is modelled by the caller-supplied fresh `job_id`). -/
def index_repository (s : Store) (url user_id branch : String)
    (incremental : Bool) (fresh_job_id : String) : IndexDecision × Store :=
  let repo_full_name := repoFullName url
  let newJob : IndexingJob :=
    { job_id := fresh_job_id
      repo := repo_full_name
      status := .pending
      triggered_by := user_id
      incremental := incremental }
  if incremental then (.started newJob, s)
  else
    match check_existing_index s repo_full_name user_id with
    | (some job, s1) => (.cached job, s1)
    | (none, s1) => (.started newJob, s1)

/-! #### The background pipeline `RepoIndexer._run_indexing_job`

The job run is modelled as a function of an environment recording what
the external world does at each step: whether the repository download
raises (after `tempfile.mkdtemp` has already created the workspace, the
shared failure mode of the git-clone primary and tarball fallback),
what `_process_file` yields for each enumerated code file, and whether
`store_chunks` raises. The poll-observable job states — the states at
`await` points, plus the final state the dead task leaves behind — are
collected in `trace`. -/

/-- What `RepoIndexer._process_file` does for one file:
`readError` — `open`/`read` raises and the internal `except` returns
`[]` silently; `tooLarge` — the size ceiling returns `[]`;
`unsupported` — `parser.parse` has no grammar for the extension and
returns `None`, so `[]`; `parsed` — chunks extracted; `procRaise` — an
exception escapes `_process_file` (e.g. from chunk extraction) and is
caught by the loop, which appends to `job.errors`. -/
inductive FileOutcome where
  | readError
  | tooLarge
  | unsupported
  | parsed (chunks : List CodeChunk)
  | procRaise (msg : String)
deriving DecidableEq, Repr

def processFileResult : FileOutcome → Except String (List CodeChunk)
  | .readError => .ok []
  | .tooLarge => .ok []
  | .unsupported => .ok []
  | .parsed cs => .ok cs
  | .procRaise m => .error m

structure RunEnv where
  downloadError : Option String
  files : List (String × FileOutcome)
  storeError : Option String

/-- The mutable `IndexingJob` fields the run touches, plus the trace of
poll-observable `(status, progress)` views. -/
structure RunState where
  status : JobStatus
  progress : ℚ
  files_processed : Nat
  chunks_indexed : Nat
  errors : List String
  trace : List (JobStatus × ℚ)
deriving DecidableEq, Repr

/-- The job state `index_repository` creates (status `pending`,
progress `0`). -/
def initialRunState : RunState :=
  { status := .pending, progress := 0, files_processed := 0
    chunks_indexed := 0, errors := [], trace := [] }

/-- Record the current job view as observable (at an `await` point). -/
def snap (st : RunState) : RunState :=
  { st with trace := st.trace ++ [(st.status, st.progress)] }

/-- The `for file_path in code_files` loop: each iteration awaits
`_process_file` (observable point), then on success extends the chunk
list, increments `files_processed` and sets
`progress = (files_processed / total) * 0.7`; on an exception it
appends the error and continues without touching the counters. -/
def fileLoop (total : Nat) :
    List (String × FileOutcome) → RunState → List CodeChunk →
    RunState × List CodeChunk
  | [], st, acc => (st, acc)
  | (path, outcome) :: rest, st, acc =>
    let st1 := snap st
    match processFileResult outcome with
    | .ok cs =>
      let fp := st1.files_processed + 1
      let st2 := { st1 with
        files_processed := fp
        progress := ((fp : ℚ) / (total : ℚ)) * (7 / 10) }
      fileLoop total rest st2 (acc ++ cs)
    | .error m =>
      let st2 := { st1 with
        errors := st1.errors ++ ["Error processing " ++ path ++ ": " ++ m] }
      fileLoop total rest st2 acc

/-- The outcome of one `_run_indexing_job` task: the final job record,
whether the download step created the temporary workspace, whether
`cleanup_temp_repo` deleted it, and whether an exception escaped the
task itself. -/
structure RunResult where
  job : RunState
  workspaceCreated : Bool
  workspaceReleased : Bool
  uncaughtError : Bool
deriving DecidableEq, Repr

/-- `RepoIndexer._run_indexing_job`. Control flow mirrored from the
source: `status := running`; await `download_repo` (`mkdtemp` creates
the workspace before the clone/tarball attempts, so the workspace
exists even when the download raises); run the file loop; await
`store_chunks`; on success set `chunks_indexed`, `progress := 1.0`,
`status := completed` in one synchronous block; any exception is caught
by `except`, which sets `status := failed` and appends the error; the
`finally` block awaits `cleanup_temp_repo(repo_path)` — but when
`download_repo` raised, the local `repo_path` was never bound, so
evaluating it raises `UnboundLocalError` out of the task and the
cleanup call never runs. -/
def run_indexing_job (env : RunEnv) (st0 : RunState) : RunResult :=
  let stA := snap st0
  let stB := { stA with status := .running }
  let stC := snap stB
  match env.downloadError with
  | some msg =>
    let stD := { stC with status := .failed, errors := stC.errors ++ [msg] }
    let stE := snap stD
    { job := stE, workspaceCreated := true, workspaceReleased := false
      uncaughtError := true }
  | none =>
    let total := env.files.length
    let stD := { stC with files_processed := 0 }
    let res := fileLoop total env.files stD []
    let stE := snap res.1
    match env.storeError with
    | none =>
      let stF := { stE with
        chunks_indexed := res.2.length, progress := 1, status := .completed }
      let stG := snap stF
      { job := stG, workspaceCreated := true, workspaceReleased := true
        uncaughtError := false }
    | some msg =>
      let stF := { stE with status := .failed, errors := stE.errors ++ [msg] }
      let stG := snap stF
      { job := stG, workspaceCreated := true, workspaceReleased := true
        uncaughtError := false }

/-- The `Job.errors` entry a file contributes, if any: only an
exception escaping `_process_file` is recorded, with the loop's
`Error processing {file}: {msg}` text. -/
def errorEntryOf (f : String × FileOutcome) : Option String :=
  match f.2 with
  | .procRaise m => some ("Error processing " ++ f.1 ++ ": " ++ m)
  | _ => none

/-- The chunks a file contributes to the job. -/
def chunksOf (f : String × FileOutcome) : List CodeChunk :=
  match f.2 with
  | .parsed cs => cs
  | _ => []

end RepoIndexer

/-! ### Verification-side notions for job traces -/

/-- Non-decreasing progress between two polled job views. -/
def progLE (a b : JobStatus × ℚ) : Prop := a.2 ≤ b.2

/-- The view of a job a poll returns: status and progress. -/
def stView (st : RepoIndexer.RunState) : JobStatus × ℚ := (st.status, st.progress)

/-- A single polled view is well-formed: progress in `[0,1]`, equal to
`1` exactly for a completed job. -/
def viewOK (x : JobStatus × ℚ) : Prop :=
  0 ≤ x.2 ∧ x.2 ≤ 1 ∧ (x.2 = 1 ↔ x.1 = JobStatus.completed)

/-- Invariant carried through the job run: the recorded trace, extended
with the current view, has non-decreasing progress and only well-formed
views. -/
def stInv (st : RepoIndexer.RunState) : Prop :=
  List.Chain' progLE (st.trace ++ [stView st]) ∧
  ∀ x ∈ st.trace ++ [stView st], viewOK x

/-! ### Concrete fixtures used by witnesses and counterexamples -/

/-- A concrete tree-sitter node: an identifier spanning bytes 4–7. -/
def tsNameNode : TSNode := .mk "identifier" [] [] 0 0 4 7

def tsFuncNode : TSNode :=
  .mk "function_definition" [("name", tsNameNode)] [tsNameNode] 0 1 0 15

/-- A concrete embedder whose encoders and humanizer are simple maps. -/
def embedderW : DualEmbedder :=
  { nlpEncode := fun s => [(s.length : ℚ)]
    codeEncode := fun s => [(s.length : ℚ), 2]
    humanize := fun s => s }

def chunkDictW : ChunkDict :=
  { code := "def f(): pass", name := "f", chunk_type := "function"
    signature := some "def f():", docstring := none
    file_path := "a.py", module := none }

def chunkW : CodeChunk :=
  { id := "o/r_src/main.py_foo_0", code := "def foo(): pass"
    repo := "o/r", file_path := "src/main.py", language := .PYTHON
    chunk_type := .FUNCTION, name := "foo", signature := some "def foo():"
    docstring := none, start_line := 0, end_line := 0, start_byte := 0
    end_byte := 15, lines_of_code := 1 }

def chunkW2 : CodeChunk :=
  { id := "p/q_lib.py_bar_3", code := "def bar(): pass"
    repo := "p/q", file_path := "lib.py", language := .PYTHON
    chunk_type := .FUNCTION, name := "bar", signature := some "def bar():"
    docstring := none, start_line := 3, end_line := 3, start_byte := 40
    end_byte := 55, lines_of_code := 1 }

/-- A store with one collection the user `u` may read and one whose
tenant set lacks `u` (whose candidate would score higher: distance 0). -/
def storeW4 : Store :=
  ⟨[{ name := ChromaStore.getCollectionName "o/r" "main"
      meta := { repo := "o/r", branch := "main"
                indexed_by_users := ["u"], total_chunks := 1 }
      entries := [chunkW] },
    { name := ChromaStore.getCollectionName "p/q" "main"
      meta := { repo := "p/q", branch := "main"
                indexed_by_users := ["someone-else"], total_chunks := 1 }
      entries := [chunkW2] }]⟩

/-- Distance oracle for `storeW4`: the unauthorized candidate is
nearest. -/
def distW4 : CodeChunk → ℚ := fun c => if c = chunkW2 then 0 else 1

/-- The single result `search storeW4 distW4 [o/r, p/q] u 10` returns. -/
def resultW4 : SearchResult :=
  { chunk := chunkW, score := 1 / (1 + distW4 chunkW), distance := distW4 chunkW
    file_url := "https://github.com/o/r/blob/main/" ++ chunkW.file_path ++
      "#L" ++ toString chunkW.start_line ++ "-L" ++ toString chunkW.end_line }

/-- A collection for repo `o/r`, branch `main`, listing two tenants. -/
def colW9 : Collection :=
  { name := ChromaStore.getCollectionName "o/r" "main"
    meta := { repo := "o/r", branch := "main"
              indexed_by_users := ["alice", "bob"], total_chunks := 5 }
    entries := [chunkW2] }

/-- A store whose collection already lists two tenants. -/
def storeW9 : Store := ⟨[colW9]⟩

/-- The store after indexing repo `o/r` under branch `dev` only. -/
def storeDev : Store :=
  ChromaStore.store_chunks Store.empty [chunkW] "o/r" "u1" "dev"

/-- The store after indexing repo `x` under branch `y_main`: its
collection name `github_x_y_main` collides with the branch-`main`
collection name of repo `x/y`. -/
def storeYMain : Store :=
  ChromaStore.store_chunks Store.empty [chunkW] "x" "u" "y_main"

def distOne : CodeChunk → ℚ := fun _ => 1

/-- The single result `search storeYMain distOne [x/y] u 10` returns. -/
def resultW10 : SearchResult :=
  { chunk := chunkW, score := 1 / (1 + distOne chunkW), distance := distOne chunkW
    file_url := "https://github.com/x/y/blob/main/" ++ chunkW.file_path ++
      "#L" ++ toString chunkW.start_line ++ "-L" ++ toString chunkW.end_line }

/-- The job state just before the file loop of a successful download:
running, zero progress, with the pending and running views already
recorded. -/
def preLoopState : RepoIndexer.RunState :=
  { status := .running, progress := 0, files_processed := 0
    chunks_indexed := 0, errors := []
    trace := [(JobStatus.pending, 0), (JobStatus.running, 0)] }

/-- A run in which the only code file cannot be read. -/
def envRead : RepoIndexer.RunEnv :=
  { downloadError := none, files := [("bad.py", .readError)], storeError := none }

/-- A run whose repository download raises (git clone and the tarball
fallback both fail, after `mkdtemp` created the workspace). -/
def envDownloadFail : RepoIndexer.RunEnv :=
  { downloadError := some "Git clone failed: network unreachable"
    files := [], storeError := none }

/-- A mixed run: one parsed file, one unsupported extension, one file
whose processing raises. -/
def envW6 : RepoIndexer.RunEnv :=
  { downloadError := none
    files := [("a.py", .parsed [chunkW]), ("notes.txt", .unsupported),
      ("b.py", .procRaise "boom")]
    storeError := none }

/-- A minimal successful run. -/
def envOk : RepoIndexer.RunEnv :=
  { downloadError := none, files := [], storeError := none }

/-! ## Theorems -/

/-! ### Chunk ids (`FunctionChunker._node_to_chunk`) -/

theorem nodeToChunk_id_eq (node : TSNode) (content repo filePath : String)
    (language : Language) :
    (FunctionChunker.nodeToChunk node content repo filePath language).id =
      FunctionChunker.chunkId
        (FunctionChunker.nodeToChunk node content repo filePath language).repo
        (FunctionChunker.nodeToChunk node content repo filePath language).file_path
        (FunctionChunker.nodeToChunk node content repo filePath language).name
        (FunctionChunker.nodeToChunk node content repo filePath language).start_line := rfl

theorem chunkId_key_safe (repo filePath name : String) (startRow : Nat) :
    '/' ∉ (FunctionChunker.chunkId repo filePath name startRow).data ∧
    ' ' ∉ (FunctionChunker.chunkId repo filePath name startRow).data := by
  have hdata : (FunctionChunker.chunkId repo filePath name startRow).data =
      ((repo ++ "_" ++ filePath ++ "_" ++ name ++ "_" ++ toString startRow).data.map
        (fun c => if c = '/' then '_' else c)).map
        (fun c => if c = ' ' then '_' else c) := rfl
  constructor <;>
  · rw [hdata]
    intro hmem
    simp only [List.mem_map] at hmem
    obtain ⟨a, ⟨b, hb, hfb⟩, hga⟩ := hmem
    subst hfb
    split_ifs at hga <;> simp_all

/-- C1: for every chunk produced by `FunctionChunker._node_to_chunk`,
the chunk id is a pure function of exactly
(repo, file_path, name, start_line): two extractions agreeing on these
four fields yield equal ids, and the id contains neither `/` nor a
space (both replaced by `_`), so re-indexing identical content
reproduces the same id. -/
theorem chunk_id_pure_function_and_key_safe
    (nodeA nodeB : TSNode) (contentA contentB repoA repoB pathA pathB : String)
    (langA langB : Language)
    (hrepo : (FunctionChunker.nodeToChunk nodeA contentA repoA pathA langA).repo =
      (FunctionChunker.nodeToChunk nodeB contentB repoB pathB langB).repo)
    (hpath : (FunctionChunker.nodeToChunk nodeA contentA repoA pathA langA).file_path =
      (FunctionChunker.nodeToChunk nodeB contentB repoB pathB langB).file_path)
    (hname : (FunctionChunker.nodeToChunk nodeA contentA repoA pathA langA).name =
      (FunctionChunker.nodeToChunk nodeB contentB repoB pathB langB).name)
    (hline : (FunctionChunker.nodeToChunk nodeA contentA repoA pathA langA).start_line =
      (FunctionChunker.nodeToChunk nodeB contentB repoB pathB langB).start_line) :
    (FunctionChunker.nodeToChunk nodeA contentA repoA pathA langA).id =
      (FunctionChunker.nodeToChunk nodeB contentB repoB pathB langB).id ∧
    '/' ∉ (FunctionChunker.nodeToChunk nodeA contentA repoA pathA langA).id.data ∧
    ' ' ∉ (FunctionChunker.nodeToChunk nodeA contentA repoA pathA langA).id.data := by
  refine ⟨?_, ?_, ?_⟩
  · rw [nodeToChunk_id_eq nodeA, nodeToChunk_id_eq nodeB, hrepo, hpath, hname, hline]
  · rw [nodeToChunk_id_eq nodeA]
    exact (chunkId_key_safe _ _ _ _).1
  · rw [nodeToChunk_id_eq nodeA]
    exact (chunkId_key_safe _ _ _ _).2

/-- Witness for C1: the same definition extracted from two different
file contents (equal repo, path, name and start line) gets the same
key-safe id. -/
theorem chunk_id_pure_function_witness :
    (FunctionChunker.nodeToChunk tsFuncNode "def foo(): return 1" "owner/repo"
        "src/a b.py" Language.PYTHON).id =
      (FunctionChunker.nodeToChunk tsFuncNode "def foo():  pass" "owner/repo"
        "src/a b.py" Language.PYTHON).id ∧
    '/' ∉ (FunctionChunker.nodeToChunk tsFuncNode "def foo(): return 1" "owner/repo"
        "src/a b.py" Language.PYTHON).id.data ∧
    ' ' ∉ (FunctionChunker.nodeToChunk tsFuncNode "def foo(): return 1" "owner/repo"
        "src/a b.py" Language.PYTHON).id.data :=
  chunk_id_pure_function_and_key_safe tsFuncNode tsFuncNode
    "def foo(): return 1" "def foo():  pass" "owner/repo" "owner/repo"
    "src/a b.py" "src/a b.py" Language.PYTHON Language.PYTHON rfl rfl rfl rfl

/-! ### `DualEmbedder.embed_batch` -/

theorem embed_batch_eq_map (e : DualEmbedder) (chunks : List ChunkDict) :
    e.embed_batch chunks =
      chunks.map (fun c => (e.nlpEncode (e.textify c), e.codeEncode c.code)) := by
  unfold DualEmbedder.embed_batch
  simp only []
  rw [List.map_map, List.map_map, List.zip_map']
  rfl

/-- C8: `embed_batch` on `N` chunks returns exactly `N`
(nlp_vector, code_vector) pairs, and the pair at output index `i` is
the embedding of the chunk at input index `i` (the nlp encoding of its
textified form and the code encoding of its raw code). -/
theorem embed_batch_length_and_order (e : DualEmbedder) (chunks : List ChunkDict) :
    (e.embed_batch chunks).length = chunks.length ∧
    ∀ i c, chunks.get? i = some c →
      (e.embed_batch chunks).get? i =
        some (e.nlpEncode (e.textify c), e.codeEncode c.code) := by
  rw [embed_batch_eq_map]
  refine ⟨List.length_map _ _, fun i c hc => ?_⟩
  simp only [List.get?_eq_getElem?] at hc ⊢
  rw [List.getElem?_map, hc]
  rfl

/-- Witness for C8 at a one-chunk batch. -/
theorem embed_batch_length_and_order_witness :
    (embedderW.embed_batch [chunkDictW]).length = [chunkDictW].length ∧
    (embedderW.embed_batch [chunkDictW]).get? 0 =
      some (embedderW.nlpEncode (embedderW.textify chunkDictW),
        embedderW.codeEncode chunkDictW.code) :=
  ⟨(embed_batch_length_and_order embedderW [chunkDictW]).1,
    (embed_batch_length_and_order embedderW [chunkDictW]).2 0 chunkDictW rfl⟩

/-! ### `ChromaStore.search` (authorization, scoring, ranking) -/

theorem mem_queryCollection {dist : CodeChunk → ℚ} {col : Collection}
    {k : Nat} {cd : CodeChunk × ℚ}
    (h : cd ∈ ChromaStore.queryCollection dist col k) :
    cd.1 ∈ col.entries ∧ cd.2 = dist cd.1 := by
  unfold ChromaStore.queryCollection at h
  have h1 := List.mem_of_mem_take h
  have h2 := (List.perm_insertionSort ChromaStore.distLE _).mem_iff.mp h1
  rw [List.mem_map] at h2
  obtain ⟨e, he, hcd⟩ := h2
  subst hcd
  exact ⟨he, rfl⟩

theorem mem_searchCandidates {s : Store} {dist : CodeChunk → ℚ}
    {repos : List String} {user_id : String} {k : Nat} {r : SearchResult}
    (h : r ∈ ChromaStore.searchCandidates s dist repos user_id k) :
    ∃ repo ∈ repos, ∃ col,
      s.getCollection (ChromaStore.getCollectionName repo "main") = some col ∧
      user_id ∈ col.meta.indexed_by_users ∧ r.chunk ∈ col.entries ∧
      r.score = 1 / (1 + r.distance) := by
  unfold ChromaStore.searchCandidates at h
  rw [List.mem_flatMap] at h
  obtain ⟨repo, hrepo, hr⟩ := h
  refine ⟨repo, hrepo, ?_⟩
  rcases hget : s.getCollection (ChromaStore.getCollectionName repo "main") with _ | col
  · rw [hget] at hr
    simp at hr
  · rw [hget] at hr
    dsimp only at hr
    by_cases huser : user_id ∈ col.meta.indexed_by_users
    · rw [if_pos huser] at hr
      rw [List.mem_map] at hr
      obtain ⟨cd, hcd, hmk⟩ := hr
      subst hmk
      exact ⟨col, rfl, huser, (mem_queryCollection hcd).1, rfl⟩
    · rw [if_neg huser] at hr
      simp at hr

theorem mem_search_mem_candidates {s : Store} {dist : CodeChunk → ℚ}
    {repos : List String} {user_id : String} {k : Nat} {r : SearchResult}
    (h : r ∈ ChromaStore.search s dist repos user_id k) :
    r ∈ ChromaStore.searchCandidates s dist repos user_id k := by
  unfold ChromaStore.search at h
  exact (List.perm_insertionSort ChromaStore.scoreGE _).mem_iff.mp
    (List.mem_of_mem_take h)

/-- C4: every result returned by `search` comes from a collection whose
tenant set contains the requesting user; a collection where the user is
absent contributes nothing (it is skipped silently — `search` is a
total function and simply drops it), however near its candidates are. -/
theorem search_results_only_from_authorized_collections
    (s : Store) (dist : CodeChunk → ℚ) (repos : List String) (user_id : String)
    (n_results : Nat) (r : SearchResult)
    (hr : r ∈ ChromaStore.search s dist repos user_id n_results) :
    ∃ repo ∈ repos, ∃ col,
      s.getCollection (ChromaStore.getCollectionName repo "main") = some col ∧
      user_id ∈ col.meta.indexed_by_users ∧ r.chunk ∈ col.entries := by
  obtain ⟨repo, hrepo, col, hget, huser, hchunk, _⟩ :=
    mem_searchCandidates (mem_search_mem_candidates hr)
  exact ⟨repo, hrepo, col, hget, huser, hchunk⟩

/-- Witness for C4: in `storeW4` the unauthorized collection holds the
nearest candidate (distance 0), yet the only result is the authorized
chunk, and the theorem places it in a collection listing user `u`. -/
theorem search_results_only_from_authorized_collections_witness :
    resultW4 ∈ ChromaStore.search storeW4 distW4 ["o/r", "p/q"] "u" 10 ∧
    ∃ repo ∈ ["o/r", "p/q"], ∃ col,
      storeW4.getCollection (ChromaStore.getCollectionName repo "main") = some col ∧
      "u" ∈ col.meta.indexed_by_users ∧ resultW4.chunk ∈ col.entries := by
  have hsearch : ChromaStore.search storeW4 distW4 ["o/r", "p/q"] "u" 10 =
      [resultW4] := rfl
  have hmem : resultW4 ∈ ChromaStore.search storeW4 distW4 ["o/r", "p/q"] "u" 10 := by
    rw [hsearch]
    exact List.mem_singleton.mpr rfl
  exact ⟨hmem,
    search_results_only_from_authorized_collections storeW4 distW4
      ["o/r", "p/q"] "u" 10 resultW4 hmem⟩

theorem searchCandidates_score {s : Store} {dist : CodeChunk → ℚ}
    {repos : List String} {user_id : String} {k : Nat} {r : SearchResult}
    (h : r ∈ ChromaStore.searchCandidates s dist repos user_id k) :
    r.score = 1 / (1 + r.distance) := by
  obtain ⟨_, _, _, _, _, _, hs⟩ := mem_searchCandidates h
  exact hs

/-- C7: every returned result's score is `1 / (1 + distance)`; the
result list is the merged per-collection candidate list sorted by
non-increasing score and truncated to the global top `n_results` (it is
sorted, drawn from the candidates, of length `min n_results
(candidate count)`, and no dropped candidate outscores a returned one);
and a search over an empty repo list returns `[]` without raising. -/
theorem search_scoring_ranking_topk (s : Store) (dist : CodeChunk → ℚ)
    (repos : List String) (user_id : String) (n_results : Nat) :
    (∀ r ∈ ChromaStore.search s dist repos user_id n_results,
      r.score = 1 / (1 + r.distance)) ∧
    List.Sorted ChromaStore.scoreGE (ChromaStore.search s dist repos user_id n_results) ∧
    (ChromaStore.search s dist repos user_id n_results).Subperm
      (ChromaStore.searchCandidates s dist repos user_id n_results) ∧
    (ChromaStore.search s dist repos user_id n_results).length =
      min n_results (ChromaStore.searchCandidates s dist repos user_id n_results).length ∧
    (∀ x ∈ ChromaStore.searchCandidates s dist repos user_id n_results,
      x ∉ ChromaStore.search s dist repos user_id n_results →
      ∀ r ∈ ChromaStore.search s dist repos user_id n_results, x.score ≤ r.score) ∧
    ChromaStore.search s dist [] user_id n_results = [] := by
  refine ⟨?_, ?_, ?_, ?_, ?_, ?_⟩
  · exact fun r hr => searchCandidates_score (mem_search_mem_candidates hr)
  · exact List.Pairwise.sublist (List.take_sublist _ _)
      (List.sorted_insertionSort ChromaStore.scoreGE _)
  · exact (List.take_sublist _ _).subperm.trans
      (List.perm_insertionSort ChromaStore.scoreGE _).subperm
  · unfold ChromaStore.search
    rw [List.length_take,
      (List.perm_insertionSort ChromaStore.scoreGE _).length_eq]
  · intro x hx hnotin r hr
    set L := List.insertionSort ChromaStore.scoreGE
      (ChromaStore.searchCandidates s dist repos user_id n_results) with hL
    have hxL : x ∈ L :=
      (List.perm_insertionSort ChromaStore.scoreGE _).mem_iff.mpr hx
    have hxdrop : x ∈ L.drop n_results := by
      have := (List.take_append_drop n_results L) ▸ hxL
      rcases List.mem_append.mp this with htake | hdrop
      · exact absurd htake hnotin
      · exact hdrop
    have hsorted : List.Pairwise ChromaStore.scoreGE L :=
      List.sorted_insertionSort ChromaStore.scoreGE _
    have hsplit : List.Pairwise ChromaStore.scoreGE
        (L.take n_results ++ L.drop n_results) := by
      rw [List.take_append_drop]
      exact hsorted
    exact (List.pairwise_append.mp hsplit).2.2 r hr x hxdrop
  · show (List.insertionSort ChromaStore.scoreGE
      (ChromaStore.searchCandidates s dist [] user_id n_results)).take n_results = []
    have hc : ChromaStore.searchCandidates s dist [] user_id n_results = [] := rfl
    rw [hc]
    simp

/-- Witness for C7 at the concrete store `storeW4`: the returned
result's score is `1 / (1 + its distance)`, and a search over no repos
returns the empty list. -/
theorem search_scoring_ranking_topk_witness :
    resultW4.score = 1 / (1 + resultW4.distance) ∧
    ChromaStore.search storeW4 distW4 [] "u" 10 = [] := by
  have hsearch : ChromaStore.search storeW4 distW4 ["o/r", "p/q"] "u" 10 =
      [resultW4] := rfl
  have hmem : resultW4 ∈ ChromaStore.search storeW4 distW4 ["o/r", "p/q"] "u" 10 := by
    rw [hsearch]
    exact List.mem_singleton.mpr rfl
  exact ⟨(search_scoring_ranking_topk storeW4 distW4 ["o/r", "p/q"] "u" 10).1
      resultW4 hmem,
    (search_scoring_ranking_topk storeW4 distW4 ["o/r", "p/q"] "u" 10).2.2.2.2.2⟩

/-! ### `ChromaStore.store_chunks` metadata effects -/

theorem find?_map_replace (l : List Collection) (col : Collection)
    (hsome : (l.find? (fun c => c.name = col.name)).isSome) :
    (l.map (fun c => if c.name = col.name then col else c)).find?
      (fun c => c.name = col.name) = some col := by
  induction l with
  | nil => simp at hsome
  | cons head tail ih =>
    by_cases hh : head.name = col.name
    · rw [List.map_cons, if_pos hh]
      refine List.find?_cons_of_pos _ ?_
      exact decide_eq_true rfl
    · rw [List.map_cons, if_neg hh,
        List.find?_cons_of_neg _ (by simp [hh])]
      rw [List.find?_cons_of_neg _ (by simp [hh])] at hsome
      exact ih hsome

theorem getCollection_setCollection (s : Store) (col : Collection) :
    (s.setCollection col).getCollection col.name = some col := by
  unfold Store.setCollection
  split
  · rename_i hsome
    exact find?_map_replace s.collections col hsome
  · rename_i hnone
    rw [Option.not_isSome_iff_eq_none] at hnone
    show List.find? _ (s.collections ++ [col]) = some col
    rw [List.find?_append]
    unfold Store.getCollection at hnone
    rw [hnone, Option.none_or]
    refine List.find?_cons_of_pos _ ?_
    exact decide_eq_true rfl

theorem getCollection_setCollection_name (s : Store) (col : Collection)
    (nm : String) (hnm : col.name = nm) :
    (s.setCollection col).getCollection nm = some col :=
  hnm ▸ getCollection_setCollection s col

/-- C9: after `store_chunks` with a non-empty chunk list, the
collection's `indexed_by_users` metadata is exactly the singleton
`[user_id]`: the closing `collection.modify` discards every previously
granted tenant. -/
theorem store_chunks_resets_tenant_set (s : Store) (chunks : List CodeChunk)
    (repo user_id branch : String) (h : chunks ≠ []) :
    ∃ col, (ChromaStore.store_chunks s chunks repo user_id branch).getCollection
        (ChromaStore.getCollectionName repo branch) = some col ∧
      col.meta.indexed_by_users = [user_id] ∧
      col.meta.total_chunks = chunks.length := by
  unfold ChromaStore.store_chunks
  rw [if_neg h]
  dsimp only
  rcases hget : s.getCollection (ChromaStore.getCollectionName repo branch) with _ | c
  · dsimp only
    exact ⟨_, getCollection_setCollection_name s _ _ rfl, rfl, rfl⟩
  · dsimp only
    refine ⟨_, getCollection_setCollection_name s _ _ ?_, rfl, rfl⟩
    have hget2 : List.find?
        (fun x => x.name = ChromaStore.getCollectionName repo branch)
        s.collections = some c := hget
    have hpc := List.find?_some hget2
    simp only [decide_eq_true_eq] at hpc
    exact hpc

/-- Witness for C9: `storeW9` lists tenants `alice` and `bob`; after
`carol` re-indexes, the tenant set is exactly `[carol]`. -/
theorem store_chunks_resets_tenant_set_witness :
    ∃ col, (ChromaStore.store_chunks storeW9 [chunkW] "o/r" "carol" "main").getCollection
        (ChromaStore.getCollectionName "o/r" "main") = some col ∧
      col.meta.indexed_by_users = ["carol"] ∧
      col.meta.total_chunks = [chunkW].length :=
  store_chunks_resets_tenant_set storeW9 [chunkW] "o/r" "carol" "main"
    (List.cons_ne_nil _ _)

/-! ### `RepoIndexer.index_repository` on an already-indexed repo -/

theorem add_user_get (s : Store) (repo user branch : String) (col : Collection)
    (h : s.getCollection (ChromaStore.getCollectionName repo branch) = some col) :
    ∃ colA, (ChromaStore.add_user_to_repo s repo user branch).getCollection
        (ChromaStore.getCollectionName repo branch) = some colA ∧
      user ∈ colA.meta.indexed_by_users ∧
      colA.entries = col.entries ∧
      colA.meta.total_chunks = col.meta.total_chunks := by
  unfold ChromaStore.add_user_to_repo
  rw [h]
  dsimp only
  by_cases hu : user ∈ col.meta.indexed_by_users
  · rw [if_pos hu]
    exact ⟨col, h, hu, rfl, rfl⟩
  · rw [if_neg hu]
    refine ⟨_, getCollection_setCollection_name s _ _ ?_, ?_, rfl, rfl⟩
    · have hget2 : List.find?
          (fun x => x.name = ChromaStore.getCollectionName repo branch)
          s.collections = some col := h
      have hpc := List.find?_some hget2
      simp only [decide_eq_true_eq] at hpc
      exact hpc
    · simp

theorem add_user_frame (s : Store) (repo user branch : String) :
    ∀ c ∈ (ChromaStore.add_user_to_repo s repo user branch).collections,
      ∃ c0 ∈ s.collections, c0.name = c.name ∧ c0.entries = c.entries ∧
        c0.meta.total_chunks = c.meta.total_chunks := by
  intro c hc
  unfold ChromaStore.add_user_to_repo at hc
  rcases hget : s.getCollection (ChromaStore.getCollectionName repo branch) with _ | col
  · rw [hget] at hc
    exact ⟨c, hc, rfl, rfl, rfl⟩
  · rw [hget] at hc
    dsimp only at hc
    by_cases hu : user ∈ col.meta.indexed_by_users
    · rw [if_pos hu] at hc
      exact ⟨c, hc, rfl, rfl, rfl⟩
    · rw [if_neg hu] at hc
      unfold Store.setCollection at hc
      split at hc
      · rw [List.mem_map] at hc
        obtain ⟨c0, hc0, hfc⟩ := hc
        by_cases hn : c0.name = ({ col with
            meta := { col.meta with
              indexed_by_users := col.meta.indexed_by_users ++ [user] } } :
            Collection).name
        · rw [if_pos hn] at hfc
          subst hfc
          exact ⟨col, List.mem_of_find?_eq_some hget, rfl, rfl, rfl⟩
        · rw [if_neg hn] at hfc
          subst hfc
          exact ⟨c0, hc0, rfl, rfl, rfl⟩
      · rename_i hnone
        exfalso
        apply hnone
        have hcn : col.name = ChromaStore.getCollectionName repo branch := by
          have hget2 : List.find?
              (fun x => x.name = ChromaStore.getCollectionName repo branch)
              s.collections = some col := hget
          have hpc := List.find?_some hget2
          simp only [decide_eq_true_eq] at hpc
          exact hpc
        show (s.getCollection _).isSome = true
        have : ({ col with
            meta := { col.meta with
              indexed_by_users := col.meta.indexed_by_users ++ [user] } } :
            Collection).name = ChromaStore.getCollectionName repo branch := hcn
        rw [this, hget]
        rfl

/-- C3 (amended): the existing-index short-circuit consults only the
branch-`main` collection. When the (repo, `main`) collection exists, a
non-incremental `index_repository` call — whatever branch it names —
does not launch the pipeline; it returns a synthetic job with status
`completed`, progress `1.0` and `chunks_indexed` equal to the stored
chunk count, adds the caller to that collection's tenant set, and
leaves every collection's rows and chunk count unchanged. -/
theorem index_repository_cached_for_main (s : Store)
    (url user_id branch jid : String) (col : Collection)
    (h : s.getCollection (ChromaStore.getCollectionName
      (RepoIndexer.repoFullName url) "main") = some col) :
    (RepoIndexer.index_repository s url user_id branch false jid).1.ranPipeline
        = false ∧
    (RepoIndexer.index_repository s url user_id branch false jid).1.job.status
        = JobStatus.completed ∧
    (RepoIndexer.index_repository s url user_id branch false jid).1.job.progress
        = 1 ∧
    (RepoIndexer.index_repository s url user_id branch false jid).1.job.chunks_indexed
        = col.meta.total_chunks ∧
    (∃ colA, (RepoIndexer.index_repository s url user_id branch false jid).2.getCollection
        (ChromaStore.getCollectionName (RepoIndexer.repoFullName url) "main")
          = some colA ∧
      user_id ∈ colA.meta.indexed_by_users ∧
      colA.entries = col.entries ∧
      colA.meta.total_chunks = col.meta.total_chunks) ∧
    (∀ c ∈ (RepoIndexer.index_repository s url user_id branch false jid).2.collections,
      ∃ c0 ∈ s.collections, c0.name = c.name ∧ c0.entries = c.entries ∧
        c0.meta.total_chunks = c.meta.total_chunks) := by
  obtain ⟨colA, hgetA, huA, hentA, htotA⟩ :=
    add_user_get s (RepoIndexer.repoFullName url) user_id "main" col h
  have hcount : ChromaStore.get_chunk_count
      (ChromaStore.add_user_to_repo s (RepoIndexer.repoFullName url) user_id "main")
      (RepoIndexer.repoFullName url) "main" = col.meta.total_chunks := by
    unfold ChromaStore.get_chunk_count
    rw [hgetA]
    exact htotA
  have hex : ChromaStore.collection_exists s (RepoIndexer.repoFullName url) "main"
      = true := by
    unfold ChromaStore.collection_exists
    rw [h]
    rfl
  have hchk : RepoIndexer.check_existing_index s (RepoIndexer.repoFullName url)
      user_id =
      (some
        { job_id := "cached"
          repo := RepoIndexer.repoFullName url
          status := .completed
          progress := 1
          chunks_indexed := col.meta.total_chunks
          triggered_by := user_id },
       ChromaStore.add_user_to_repo s (RepoIndexer.repoFullName url) user_id
         "main") := by
    unfold RepoIndexer.check_existing_index
    rw [if_pos hex]
    dsimp only
    rw [hcount]
  have hout : RepoIndexer.index_repository s url user_id branch false jid =
      (.cached
        { job_id := "cached"
          repo := RepoIndexer.repoFullName url
          status := .completed
          progress := 1
          chunks_indexed := col.meta.total_chunks
          triggered_by := user_id },
       ChromaStore.add_user_to_repo s (RepoIndexer.repoFullName url) user_id
         "main") := by
    unfold RepoIndexer.index_repository
    rw [if_neg (by exact Bool.false_ne_true)]
    rw [hchk]
  rw [hout]
  exact ⟨rfl, rfl, rfl, rfl, ⟨colA, hgetA, huA, hentA, htotA⟩,
    add_user_frame s (RepoIndexer.repoFullName url) user_id "main"⟩

/-- Witness for C3 (amended): `storeW9` holds an indexed `(o/r, main)`
collection with 5 chunks; a non-incremental call by `carol` is served
from the cache. -/
theorem index_repository_cached_for_main_witness :
    (RepoIndexer.index_repository storeW9 "https://github.com/o/r" "carol"
      "main" false "j1").1.ranPipeline = false ∧
    (RepoIndexer.index_repository storeW9 "https://github.com/o/r" "carol"
      "main" false "j1").1.job.status = JobStatus.completed ∧
    (RepoIndexer.index_repository storeW9 "https://github.com/o/r" "carol"
      "main" false "j1").1.job.chunks_indexed = colW9.meta.total_chunks := by
  obtain ⟨h1, h2, _, h4, _, _⟩ :=
    index_repository_cached_for_main storeW9 "https://github.com/o/r" "carol"
      "main" "j1" colW9 rfl
  exact ⟨h1, h2, h4⟩

/-- Counterexample to C3 as stated: repo `o/r` is fully indexed under
branch `dev` (collection `github_o_r_dev`), yet a second
non-incremental call for the same `(repo, branch)` launches the
pipeline again (a fresh pending job), instead of returning a completed
cached job — the existence check looks only for the branch-`main`
collection name. -/
theorem index_repository_nonmain_branch_reruns_pipeline :
    (RepoIndexer.index_repository storeDev "https://github.com/o/r" "u2" "dev"
      false "job-1").1.ranPipeline = true ∧
    (RepoIndexer.index_repository storeDev "https://github.com/o/r" "u2" "dev"
      false "job-1").1.job.status = JobStatus.pending :=
  ⟨rfl, rfl⟩

/-! ### Which collections `search` reads -/

/-- Counterexample to C10 as stated: collection names are built by
string concatenation with `/` mapped to `_`, which is not injective.
Chunks stored for repo `x` under branch `y_main` land in collection
`github_x_y_main`, the very name `search` consults for repo `x/y` —
so a chunk stored under a branch other than `main` is returned by
`search`. -/
theorem search_returns_nonmain_chunks_on_name_collision :
    (ChromaStore.search storeYMain distOne ["x/y"] "u" 10).map
      (fun r => r.chunk) = [chunkW] ∧
    storeYMain.collections.map (fun c => c.meta.branch) = ["y_main"] :=
  ⟨rfl, rfl⟩

/-- C10 (amended): the collection `search` consults for each requested
repo is always the one named for branch `main`
(`github_<owner>_<repo>_main`), regardless of the branch supplied at
indexing time; and for any one repo the branch-`b` collection name with
`b ≠ main` differs from its branch-`main` name, so chunks stored under
a non-`main` branch of a repo are never returned by a search for that
same repo — they can only surface through a cross-repo name collision
of the non-injective `/`-to-`_` naming. -/
theorem search_consults_only_main_collections (s : Store)
    (dist : CodeChunk → ℚ) (repos : List String) (user_id : String) (k : Nat) :
    (∀ r ∈ ChromaStore.search s dist repos user_id k,
      ∃ repo ∈ repos, ∃ col,
        s.getCollection (ChromaStore.getCollectionName repo "main") = some col ∧
        r.chunk ∈ col.entries) ∧
    (∀ repo branch, branch ≠ "main" →
      ChromaStore.getCollectionName repo branch ≠
        ChromaStore.getCollectionName repo "main") := by
  constructor
  · intro r hr
    obtain ⟨repo, hrepo, col, hget, _, hchunk, _⟩ :=
      mem_searchCandidates (mem_search_mem_candidates hr)
    exact ⟨repo, hrepo, col, hget, hchunk⟩
  · intro repo branch hb heq
    apply hb
    have hdata := congrArg String.data heq
    unfold ChromaStore.getCollectionName at hdata
    simp only [String.data_append, List.append_assoc] at hdata
    have h1 := List.append_cancel_left hdata
    have h2 := List.append_cancel_left h1
    have h3 := List.append_cancel_left h2
    exact String.ext h3

/-- Witness for C10 (amended), at the collision store: the returned
chunk does come from the collection looked up under the `main` name,
and for the same repo `x` the `dev` collection name differs from the
`main` one. -/
theorem search_consults_only_main_collections_witness :
    (∃ repo ∈ ["x/y"], ∃ col,
      storeYMain.getCollection (ChromaStore.getCollectionName repo "main")
        = some col ∧ resultW10.chunk ∈ col.entries) ∧
    ChromaStore.getCollectionName "x" "dev" ≠
      ChromaStore.getCollectionName "x" "main" := by
  have hsearch : ChromaStore.search storeYMain distOne ["x/y"] "u" 10 =
      [resultW10] := rfl
  have hmem : resultW10 ∈ ChromaStore.search storeYMain distOne ["x/y"] "u" 10 := by
    rw [hsearch]
    exact List.mem_singleton.mpr rfl
  exact ⟨(search_consults_only_main_collections storeYMain distOne ["x/y"]
      "u" 10).1 resultW10 hmem,
    (search_consults_only_main_collections storeYMain distOne ["x/y"]
      "u" 10).2 "x" "dev" (by decide)⟩

/-! ### Job trace invariants (`RepoIndexer._run_indexing_job`) -/

theorem viewOK_of_lt_one {st : JobStatus} {p : ℚ} (h0 : 0 ≤ p) (h1 : p < 1)
    (hs : st ≠ JobStatus.completed) : viewOK (st, p) := by
  refine ⟨h0, le_of_lt h1, ?_⟩
  constructor
  · intro hp
    exact absurd hp (ne_of_lt h1)
  · intro hst
    exact absurd hst hs

theorem viewOK_completed_one : viewOK (JobStatus.completed, 1) := by
  refine ⟨by norm_num, le_refl 1, ?_⟩
  simp

theorem stInv_view (st : RepoIndexer.RunState) (h : stInv st) :
    viewOK (stView st) :=
  h.2 _ (List.mem_append_right _ (List.mem_singleton.mpr rfl))

theorem stInv_snap (st : RepoIndexer.RunState) (h : stInv st) :
    stInv (RepoIndexer.snap st) := by
  obtain ⟨hchain, hview⟩ := h
  constructor
  · show List.Chain' progLE ((st.trace ++ [stView st]) ++ [stView st])
    rw [List.chain'_append]
    refine ⟨hchain, List.chain'_singleton _, ?_⟩
    intro x hx y hy
    rw [List.head?_cons, Option.mem_def, Option.some_inj] at hy
    rw [List.getLast?_concat, Option.mem_def, Option.some_inj] at hx
    subst hx
    subst hy
    exact le_refl _
  · intro x hx
    rcases List.mem_append.mp hx with hA | hB
    · exact hview x hA
    · rw [List.mem_singleton] at hB
      subst hB
      exact hview _ (List.mem_append_right _ (List.mem_singleton.mpr rfl))

theorem stInv_update (st st2 : RepoIndexer.RunState)
    (htrace : st2.trace = st.trace) (hle : st.progress ≤ st2.progress)
    (hview2 : viewOK (stView st2)) (h : stInv st) : stInv st2 := by
  obtain ⟨hchain, hview⟩ := h
  rw [List.chain'_append] at hchain
  obtain ⟨h1, _, h3⟩ := hchain
  constructor
  · rw [htrace, List.chain'_append]
    refine ⟨h1, List.chain'_singleton _, ?_⟩
    intro x hx y hy
    rw [List.head?_cons, Option.mem_def, Option.some_inj] at hy
    subst hy
    have hx1 : progLE x (stView st) :=
      h3 x hx (stView st) (by rw [List.head?_cons, Option.mem_def])
    exact le_trans hx1 hle
  · rw [htrace]
    intro x hx
    rcases List.mem_append.mp hx with hA | hB
    · exact hview x (List.mem_append_left _ hA)
    · rw [List.mem_singleton] at hB
      subst hB
      exact hview2

theorem stInv_trace (st : RepoIndexer.RunState) (h : stInv st) :
    List.Chain' progLE st.trace ∧ ∀ x ∈ st.trace, viewOK x := by
  obtain ⟨hchain, hview⟩ := h
  rw [List.chain'_append] at hchain
  exact ⟨hchain.1, fun x hx => hview x (List.mem_append_left _ hx)⟩

theorem progress_frac_bounds (fp total : Nat) (h : fp ≤ total) :
    0 ≤ ((fp : ℚ) / (total : ℚ)) * (7 / 10) ∧
    ((fp : ℚ) / (total : ℚ)) * (7 / 10) ≤ 7 / 10 := by
  constructor
  · positivity
  · rcases Nat.eq_zero_or_pos total with h0 | hpos
    · subst h0
      have hfp : fp = 0 := Nat.le_zero.mp h
      subst hfp
      norm_num
    · have htpos : (0 : ℚ) < (total : ℚ) := by exact_mod_cast hpos
      have hfrac : ((fp : ℚ) / (total : ℚ)) ≤ 1 := by
        rw [div_le_one htpos]
        exact_mod_cast h
      have hnn : (0 : ℚ) ≤ (fp : ℚ) / (total : ℚ) := by positivity
      nlinarith [hfrac, hnn]

theorem stInv_preLoop : stInv preLoopState := by
  constructor
  · show List.Chain' progLE
      [(JobStatus.pending, 0), (JobStatus.running, 0), (JobStatus.running, 0)]
    refine List.chain'_cons.mpr ⟨le_refl 0, ?_⟩
    exact List.chain'_cons.mpr ⟨le_refl 0, List.chain'_singleton _⟩
  · intro x hx
    have hx2 : x ∈ [(JobStatus.pending, (0 : ℚ)), (JobStatus.running, 0),
        (JobStatus.running, 0)] := hx
    simp only [List.mem_cons, List.not_mem_nil, or_false] at hx2
    rcases hx2 with rfl | rfl | rfl
    · exact viewOK_of_lt_one (le_refl 0) (by norm_num) (by simp)
    · exact viewOK_of_lt_one (le_refl 0) (by norm_num) (by simp)
    · exact viewOK_of_lt_one (le_refl 0) (by norm_num) (by simp)

theorem fileLoop_step_ok (total : Nat)
    (rest : List (String × RepoIndexer.FileOutcome))
    (st : RepoIndexer.RunState) (acc : List CodeChunk) (path : String)
    (o : RepoIndexer.FileOutcome) (cs : List CodeChunk)
    (ho : RepoIndexer.processFileResult o = .ok cs) :
    RepoIndexer.fileLoop total ((path, o) :: rest) st acc =
      RepoIndexer.fileLoop total rest
        { RepoIndexer.snap st with
          files_processed := (RepoIndexer.snap st).files_processed + 1
          progress := ((((RepoIndexer.snap st).files_processed + 1 : Nat) : ℚ) /
            (total : ℚ)) * (7 / 10) }
        (acc ++ cs) := by
  conv_lhs => rw [RepoIndexer.fileLoop]
  rw [ho]

theorem fileLoop_step_err (total : Nat)
    (rest : List (String × RepoIndexer.FileOutcome))
    (st : RepoIndexer.RunState) (acc : List CodeChunk) (path : String)
    (o : RepoIndexer.FileOutcome) (m : String)
    (ho : RepoIndexer.processFileResult o = .error m) :
    RepoIndexer.fileLoop total ((path, o) :: rest) st acc =
      RepoIndexer.fileLoop total rest
        { RepoIndexer.snap st with
          errors := (RepoIndexer.snap st).errors ++
            ["Error processing " ++ path ++ ": " ++ m] }
        acc := by
  conv_lhs => rw [RepoIndexer.fileLoop]
  rw [ho]

theorem fileLoop_spec (total : Nat)
    (files : List (String × RepoIndexer.FileOutcome)) :
    ∀ (st : RepoIndexer.RunState) (acc : List CodeChunk),
      st.status = JobStatus.running →
      st.progress = ((st.files_processed : ℚ) / (total : ℚ)) * (7 / 10) →
      st.files_processed + files.length ≤ total →
      stInv st →
      (RepoIndexer.fileLoop total files st acc).1.status = JobStatus.running ∧
      (RepoIndexer.fileLoop total files st acc).1.progress =
        (((RepoIndexer.fileLoop total files st acc).1.files_processed : ℚ) /
          (total : ℚ)) * (7 / 10) ∧
      (RepoIndexer.fileLoop total files st acc).1.files_processed ≤ total ∧
      st.progress ≤ (RepoIndexer.fileLoop total files st acc).1.progress ∧
      stInv (RepoIndexer.fileLoop total files st acc).1 := by
  induction files with
  | nil =>
    intro st acc h1 h2 h3 h4
    exact ⟨h1, h2, by simpa using h3, le_refl _, h4⟩
  | cons f rest ih =>
    intro st acc h1 h2 h3 h4
    obtain ⟨path, o⟩ := f
    have hlen : st.files_processed + (rest.length + 1) ≤ total := by
      simpa [List.length_cons, Nat.add_comm, Nat.add_assoc, Nat.add_left_comm]
        using h3
    rcases hpf : RepoIndexer.processFileResult o with m | cs
    · rw [fileLoop_step_err total rest st acc path o m hpf]
      have hsnap : stInv (RepoIndexer.snap st) := stInv_snap st h4
      have h4b : stInv { RepoIndexer.snap st with
          errors := (RepoIndexer.snap st).errors ++
            ["Error processing " ++ path ++ ": " ++ m] } := by
        refine stInv_update (RepoIndexer.snap st) _ rfl (le_refl _) ?_ hsnap
        exact stInv_view _ hsnap
      have := ih { RepoIndexer.snap st with
          errors := (RepoIndexer.snap st).errors ++
            ["Error processing " ++ path ++ ": " ++ m] } acc h1 h2
        (by show st.files_processed + rest.length ≤ total; omega) h4b
      exact ⟨this.1, this.2.1, this.2.2.1, this.2.2.2.1, this.2.2.2.2⟩
    · rw [fileLoop_step_ok total rest st acc path o cs hpf]
      have hsnap : stInv (RepoIndexer.snap st) := stInv_snap st h4
      have hfp1 : st.files_processed + 1 ≤ total := by omega
      have hmono : st.progress ≤
          (((st.files_processed + 1 : Nat) : ℚ) / (total : ℚ)) * (7 / 10) := by
        rw [h2]
        have hc : (0 : ℚ) ≤ (total : ℚ) := by positivity
        have hnum : ((st.files_processed : ℚ)) ≤
            ((st.files_processed + 1 : Nat) : ℚ) := by
          push_cast
          linarith
        have hdiv := div_le_div_of_nonneg_right hnum hc
        nlinarith [hdiv]
      have hbounds := progress_frac_bounds (st.files_processed + 1) total hfp1
      have hview2 : viewOK (st.status,
          (((st.files_processed + 1 : Nat) : ℚ) / (total : ℚ)) * (7 / 10)) := by
        rw [h1]
        refine viewOK_of_lt_one hbounds.1 ?_ (by simp)
        calc (((st.files_processed + 1 : Nat) : ℚ) / (total : ℚ)) * (7 / 10)
            ≤ 7 / 10 := hbounds.2
          _ < 1 := by norm_num
      have h4b : stInv { RepoIndexer.snap st with
          files_processed := (RepoIndexer.snap st).files_processed + 1
          progress := ((((RepoIndexer.snap st).files_processed + 1 : Nat) : ℚ) /
            (total : ℚ)) * (7 / 10) } := by
        refine stInv_update (RepoIndexer.snap st) _ rfl hmono ?_ hsnap
        exact hview2
      have := ih { RepoIndexer.snap st with
          files_processed := (RepoIndexer.snap st).files_processed + 1
          progress := ((((RepoIndexer.snap st).files_processed + 1 : Nat) : ℚ) /
            (total : ℚ)) * (7 / 10) } (acc ++ cs) h1 rfl
        (by show st.files_processed + 1 + rest.length ≤ total; omega) h4b
      exact ⟨this.1, this.2.1, this.2.2.1, le_trans hmono this.2.2.2.1,
        this.2.2.2.2⟩

theorem run_fail_branch_eq (env : RepoIndexer.RunEnv) (msg : String)
    (hdl : env.downloadError = some msg) :
    RepoIndexer.run_indexing_job env RepoIndexer.initialRunState =
      { job := { status := .failed, progress := 0, files_processed := 0
                 chunks_indexed := 0, errors := [msg]
                 trace := [(JobStatus.pending, 0), (JobStatus.running, 0),
                   (JobStatus.failed, 0)] }
        workspaceCreated := true, workspaceReleased := false
        uncaughtError := true } := by
  unfold RepoIndexer.run_indexing_job
  rw [hdl]
  rfl

theorem run_ok_store_ok_eq (env : RepoIndexer.RunEnv)
    (hdl : env.downloadError = none) (hst : env.storeError = none) :
    RepoIndexer.run_indexing_job env RepoIndexer.initialRunState =
      { job := RepoIndexer.snap
          { RepoIndexer.snap
              (RepoIndexer.fileLoop env.files.length env.files preLoopState []).1 with
            chunks_indexed :=
              (RepoIndexer.fileLoop env.files.length env.files preLoopState []).2.length
            progress := 1
            status := JobStatus.completed }
        workspaceCreated := true, workspaceReleased := true
        uncaughtError := false } := by
  unfold RepoIndexer.run_indexing_job
  rw [hdl]
  dsimp only
  rw [hst]
  rfl

theorem run_ok_store_fail_eq (env : RepoIndexer.RunEnv) (msg : String)
    (hdl : env.downloadError = none) (hst : env.storeError = some msg) :
    RepoIndexer.run_indexing_job env RepoIndexer.initialRunState =
      { job := RepoIndexer.snap
          { RepoIndexer.snap
              (RepoIndexer.fileLoop env.files.length env.files preLoopState []).1 with
            status := JobStatus.failed
            errors := (RepoIndexer.snap
              (RepoIndexer.fileLoop env.files.length env.files preLoopState []).1).errors
              ++ [msg] }
        workspaceCreated := true, workspaceReleased := true
        uncaughtError := false } := by
  unfold RepoIndexer.run_indexing_job
  rw [hdl]
  dsimp only
  rw [hst]
  rfl

/-- C5: over the sequence of job states observable by polling
(the states at `await` points, ending with the state the finished task
leaves behind), `Job.progress` is monotonically non-decreasing, stays
within `[0, 1]`, and equals exactly `1.0` if and only if `Job.status`
is `completed`. -/
theorem job_progress_monotone_bounded_iff_completed
    (env : RepoIndexer.RunEnv) :
    List.Chain' progLE
      (RepoIndexer.run_indexing_job env RepoIndexer.initialRunState).job.trace ∧
    (∀ x ∈ (RepoIndexer.run_indexing_job env
        RepoIndexer.initialRunState).job.trace, 0 ≤ x.2 ∧ x.2 ≤ 1) ∧
    (∀ x ∈ (RepoIndexer.run_indexing_job env
        RepoIndexer.initialRunState).job.trace,
      (x.2 = 1 ↔ x.1 = JobStatus.completed)) := by
  have key : stInv
      (RepoIndexer.run_indexing_job env RepoIndexer.initialRunState).job := by
    rcases hdl : env.downloadError with _ | msg
    · have hloop := fileLoop_spec env.files.length env.files preLoopState []
        rfl (by simp [preLoopState]) (by simp [preLoopState]) stInv_preLoop
      have hb := progress_frac_bounds
        (RepoIndexer.fileLoop env.files.length env.files
          preLoopState []).1.files_processed env.files.length hloop.2.2.1
      have hple : (RepoIndexer.fileLoop env.files.length env.files
          preLoopState []).1.progress ≤ 7 / 10 := by
        rw [hloop.2.1]
        exact hb.2
      have hpnn : 0 ≤ (RepoIndexer.fileLoop env.files.length env.files
          preLoopState []).1.progress := by
        rw [hloop.2.1]
        exact hb.1
      rcases hst : env.storeError with _ | m
      · rw [run_ok_store_ok_eq env hdl hst]
        dsimp only
        apply stInv_snap
        refine stInv_update
          (RepoIndexer.snap (RepoIndexer.fileLoop env.files.length env.files
            preLoopState []).1) _ rfl ?_ ?_
          (stInv_snap _ hloop.2.2.2.2)
        · show (RepoIndexer.fileLoop env.files.length env.files
            preLoopState []).1.progress ≤ 1
          linarith [hple]
        · exact viewOK_completed_one
      · rw [run_ok_store_fail_eq env m hdl hst]
        dsimp only
        apply stInv_snap
        refine stInv_update
          (RepoIndexer.snap (RepoIndexer.fileLoop env.files.length env.files
            preLoopState []).1) _ rfl (le_refl _) ?_
          (stInv_snap _ hloop.2.2.2.2)
        have hview : viewOK (JobStatus.failed,
            (RepoIndexer.fileLoop env.files.length env.files
              preLoopState []).1.progress) :=
          viewOK_of_lt_one hpnn (by linarith [hple]) (by simp)
        exact hview
    · rw [run_fail_branch_eq env msg hdl]
      dsimp only
      constructor
      · show List.Chain' progLE [(JobStatus.pending, 0), (JobStatus.running, 0),
          (JobStatus.failed, 0), (JobStatus.failed, 0)]
        refine List.chain'_cons.mpr ⟨le_refl 0, ?_⟩
        refine List.chain'_cons.mpr ⟨le_refl 0, ?_⟩
        exact List.chain'_cons.mpr ⟨le_refl 0, List.chain'_singleton _⟩
      · intro x hx
        have hx2 : x ∈ [(JobStatus.pending, (0 : ℚ)), (JobStatus.running, 0),
            (JobStatus.failed, 0), (JobStatus.failed, 0)] := hx
        simp only [List.mem_cons, List.not_mem_nil, or_false] at hx2
        rcases hx2 with rfl | rfl | rfl | rfl
        · exact viewOK_of_lt_one (le_refl 0) (by norm_num) (by simp)
        · exact viewOK_of_lt_one (le_refl 0) (by norm_num) (by simp)
        · exact viewOK_of_lt_one (le_refl 0) (by norm_num) (by simp)
        · exact viewOK_of_lt_one (le_refl 0) (by norm_num) (by simp)
  obtain ⟨hchain, hviews⟩ := stInv_trace _ key
  exact ⟨hchain, fun x hx => ⟨(hviews x hx).1, (hviews x hx).2.1⟩,
    fun x hx => (hviews x hx).2.2⟩

/-- Witness for C5 at a minimal successful run, whose observable trace
is pending, running, running (after the empty file loop), completed. -/
theorem job_progress_monotone_bounded_iff_completed_witness :
    (List.Chain' progLE
      (RepoIndexer.run_indexing_job envOk RepoIndexer.initialRunState).job.trace ∧
    (∀ x ∈ (RepoIndexer.run_indexing_job envOk
        RepoIndexer.initialRunState).job.trace, 0 ≤ x.2 ∧ x.2 ≤ 1) ∧
    (∀ x ∈ (RepoIndexer.run_indexing_job envOk
        RepoIndexer.initialRunState).job.trace,
      (x.2 = 1 ↔ x.1 = JobStatus.completed))) ∧
    (RepoIndexer.run_indexing_job envOk RepoIndexer.initialRunState).job.trace =
      [(JobStatus.pending, 0), (JobStatus.running, 0), (JobStatus.running, 0),
        (JobStatus.completed, 1)] :=
  ⟨job_progress_monotone_bounded_iff_completed envOk, rfl⟩

/-! ### Error recording and skipped files -/

theorem fileLoop_errors_chunks (total : Nat)
    (files : List (String × RepoIndexer.FileOutcome)) :
    ∀ (st : RepoIndexer.RunState) (acc : List CodeChunk),
      (RepoIndexer.fileLoop total files st acc).1.errors =
        st.errors ++ files.filterMap RepoIndexer.errorEntryOf ∧
      (RepoIndexer.fileLoop total files st acc).2 =
        acc ++ files.flatMap RepoIndexer.chunksOf := by
  induction files with
  | nil =>
    intro st acc
    simp [RepoIndexer.fileLoop]
  | cons f rest ih =>
    intro st acc
    obtain ⟨path, o⟩ := f
    cases o with
    | readError =>
      rw [fileLoop_step_ok total rest st acc path .readError [] rfl]
      have := ih { RepoIndexer.snap st with
        files_processed := (RepoIndexer.snap st).files_processed + 1
        progress := ((((RepoIndexer.snap st).files_processed + 1 : Nat) : ℚ) /
          (total : ℚ)) * (7 / 10) } (acc ++ [])
      simpa [RepoIndexer.errorEntryOf, RepoIndexer.chunksOf, RepoIndexer.snap]
        using this
    | tooLarge =>
      rw [fileLoop_step_ok total rest st acc path .tooLarge [] rfl]
      have := ih { RepoIndexer.snap st with
        files_processed := (RepoIndexer.snap st).files_processed + 1
        progress := ((((RepoIndexer.snap st).files_processed + 1 : Nat) : ℚ) /
          (total : ℚ)) * (7 / 10) } (acc ++ [])
      simpa [RepoIndexer.errorEntryOf, RepoIndexer.chunksOf, RepoIndexer.snap]
        using this
    | unsupported =>
      rw [fileLoop_step_ok total rest st acc path .unsupported [] rfl]
      have := ih { RepoIndexer.snap st with
        files_processed := (RepoIndexer.snap st).files_processed + 1
        progress := ((((RepoIndexer.snap st).files_processed + 1 : Nat) : ℚ) /
          (total : ℚ)) * (7 / 10) } (acc ++ [])
      simpa [RepoIndexer.errorEntryOf, RepoIndexer.chunksOf, RepoIndexer.snap]
        using this
    | parsed cs =>
      rw [fileLoop_step_ok total rest st acc path (.parsed cs) cs rfl]
      have := ih { RepoIndexer.snap st with
        files_processed := (RepoIndexer.snap st).files_processed + 1
        progress := ((((RepoIndexer.snap st).files_processed + 1 : Nat) : ℚ) /
          (total : ℚ)) * (7 / 10) } (acc ++ cs)
      simpa [RepoIndexer.errorEntryOf, RepoIndexer.chunksOf, RepoIndexer.snap,
        List.append_assoc] using this
    | procRaise m =>
      rw [fileLoop_step_err total rest st acc path (.procRaise m) m rfl]
      have := ih { RepoIndexer.snap st with
        errors := (RepoIndexer.snap st).errors ++
          ["Error processing " ++ path ++ ": " ++ m] } acc
      simpa [RepoIndexer.errorEntryOf, RepoIndexer.chunksOf, RepoIndexer.snap,
        List.append_assoc] using this

/-- C6 (amended): in a job whose download and store steps succeed,
exactly the files whose processing raises out of `_process_file`
contribute an entry to `Job.errors` (none is dropped); files that
cannot be read, oversize files, and files with an unregistered
extension contribute neither an error entry nor chunks — they are
silent skips — and the job still completes, with `chunks_indexed`
counting only chunks of successfully parsed files. -/
theorem file_failures_recorded_and_unsupported_skipped
    (env : RepoIndexer.RunEnv)
    (hdl : env.downloadError = none) (hst : env.storeError = none) :
    (RepoIndexer.run_indexing_job env RepoIndexer.initialRunState).job.status
        = JobStatus.completed ∧
    (RepoIndexer.run_indexing_job env RepoIndexer.initialRunState).job.errors
        = env.files.filterMap RepoIndexer.errorEntryOf ∧
    (RepoIndexer.run_indexing_job env RepoIndexer.initialRunState).job.chunks_indexed
        = (env.files.flatMap RepoIndexer.chunksOf).length := by
  rw [run_ok_store_ok_eq env hdl hst]
  obtain ⟨herr, hch⟩ := fileLoop_errors_chunks env.files.length env.files
    preLoopState []
  refine ⟨rfl, ?_, ?_⟩
  · show (RepoIndexer.fileLoop env.files.length env.files
      preLoopState []).1.errors = env.files.filterMap RepoIndexer.errorEntryOf
    rw [herr]
    simp [preLoopState]
  · show (RepoIndexer.fileLoop env.files.length env.files
      preLoopState []).2.length = (env.files.flatMap RepoIndexer.chunksOf).length
    rw [hch]
    simp

/-- Witness for C6 (amended) at a mixed run: one parsed file, one
unsupported file, one file whose processing raises; only the latter is
recorded, and the job completes with one chunk indexed. -/
theorem file_failures_recorded_and_unsupported_skipped_witness :
    ((RepoIndexer.run_indexing_job envW6 RepoIndexer.initialRunState).job.status
        = JobStatus.completed ∧
    (RepoIndexer.run_indexing_job envW6 RepoIndexer.initialRunState).job.errors
        = envW6.files.filterMap RepoIndexer.errorEntryOf ∧
    (RepoIndexer.run_indexing_job envW6 RepoIndexer.initialRunState).job.chunks_indexed
        = (envW6.files.flatMap RepoIndexer.chunksOf).length) ∧
    (RepoIndexer.run_indexing_job envW6 RepoIndexer.initialRunState).job.errors
        = ["Error processing b.py: boom"] ∧
    (RepoIndexer.run_indexing_job envW6 RepoIndexer.initialRunState).job.chunks_indexed
        = 1 :=
  ⟨file_failures_recorded_and_unsupported_skipped envW6 rfl rfl, rfl, rfl⟩

/-- Counterexample to C6 as stated: a file that cannot be read (the
`open`/`read` call raises, e.g. a non-UTF-8 file) is swallowed by the
`except` inside `_process_file`, which returns `[]`: the job records
no error at all for it — `Job.errors` stays empty — and completes, so a
file-level read failure is silently dropped rather than recorded. -/
theorem unreadable_file_error_silently_dropped :
    (RepoIndexer.run_indexing_job envRead RepoIndexer.initialRunState).job.errors
        = [] ∧
    (RepoIndexer.run_indexing_job envRead RepoIndexer.initialRunState).job.status
        = JobStatus.completed ∧
    (RepoIndexer.run_indexing_job envRead
      RepoIndexer.initialRunState).job.files_processed = 1 :=
  ⟨rfl, rfl, rfl⟩

/-! ### Workspace cleanup on the download-failure path -/

/-- C2: evaluation at the failing input. When the repository download
raises (git clone and the tarball fallback both fail), the job is duly
marked failed with the error appended — but the `finally` block
evaluates the never-bound local `repo_path`, raising
`UnboundLocalError` out of the task: `cleanup_temp_repo` is never
called, and the temporary directory `mkdtemp` created inside
`download_repo` is leaked, contradicting the guaranteed release of the
fetched workspace on every exit path. -/
theorem download_failure_sets_failed_but_leaks_workspace :
    (RepoIndexer.run_indexing_job envDownloadFail
      RepoIndexer.initialRunState).job.status = JobStatus.failed ∧
    "Git clone failed: network unreachable" ∈
      (RepoIndexer.run_indexing_job envDownloadFail
        RepoIndexer.initialRunState).job.errors ∧
    (RepoIndexer.run_indexing_job envDownloadFail
      RepoIndexer.initialRunState).workspaceCreated = true ∧
    (RepoIndexer.run_indexing_job envDownloadFail
      RepoIndexer.initialRunState).workspaceReleased = false ∧
    (RepoIndexer.run_indexing_job envDownloadFail
      RepoIndexer.initialRunState).uncaughtError = true :=
  ⟨rfl, List.mem_singleton.mpr rfl, rfl, rfl, rfl⟩
